import Mathlib

/-!
Verification of the Uri library (src/Uri.cpp) against its specification.

Strings are modelled as `List Char`; the C++ `std::string` find/substr idioms
are translated with `takeWhile`/`dropWhile`.  The parser mutates a `Uri::Impl`
record in place; we model this by threading a `UriState` value through every
stage and returning a `Bool` success flag together with the state as left by
the C++ code, including the partial writes the code performs before failing.
-/

namespace UriModel

/-- ALPHA character set (Uri.cpp lines 25-28): ranges a-z and A-Z. -/
def isAlphaChar (c : Char) : Bool :=
  ('a' ≤ c && c ≤ 'z') || ('A' ≤ c && c ≤ 'Z')

/-- DIGIT character set (Uri.cpp line 33): range 0-9. -/
def isDigitChar (c : Char) : Bool :=
  '0' ≤ c && c ≤ '9'

/-- HEXDIG character set (Uri.cpp lines 39-43): 0-9, A-F, a-f. -/
def isHexdigChar (c : Char) : Bool :=
  ('0' ≤ c && c ≤ '9') || ('A' ≤ c && c ≤ 'F') || ('a' ≤ c && c ≤ 'f')

/-- UNRESERVED character set (Uri.cpp lines 49-53). -/
def isUnreservedChar (c : Char) : Bool :=
  isAlphaChar c || isDigitChar c || c == '-' || c == '.' || c == '_' || c == '~'

/-- SUB_DELIMS character set (Uri.cpp lines 59-62). -/
def isSubDelimsChar (c : Char) : Bool :=
  -- the fourth member of the set is the apostrophe character, code 39
  c == '!' || c == '$' || c == '&' || c.toNat == 39 || c == '(' || c == ')' ||
  c == '*' || c == '+' || c == ',' || c == ';' || c == '='

/-- SCHEME_NOT_FIRST character set (Uri.cpp lines 69-73). -/
def isSchemeNotFirstChar (c : Char) : Bool :=
  isAlphaChar c || isDigitChar c || c == '+' || c == '-' || c == '.'

/-- PCHAR_NOT_PCT_ENCODED character set (Uri.cpp lines 80-84). -/
def isPcharNotPctEncoded (c : Char) : Bool :=
  isUnreservedChar c || isSubDelimsChar c || c == ':' || c == '@'

/-- QUERY_OR_FRAGMENT_NOT_PCT_ENCODED character set (Uri.cpp lines 92-95). -/
def isQueryOrFragmentNotPctEncoded (c : Char) : Bool :=
  isPcharNotPctEncoded c || c == '/' || c == '?'

/-- USER_INFO_NOT_PCT_ENCODED character set (Uri.cpp lines 102-106). -/
def isUserInfoNotPctEncoded (c : Char) : Bool :=
  isUnreservedChar c || isSubDelimsChar c || c == ':'

/-- REG_NAME_NOT_PCT_ENCODED character set (Uri.cpp lines 113-116). -/
def isRegNameNotPctEncoded (c : Char) : Bool :=
  isUnreservedChar c || isSubDelimsChar c

/-- IPV_FUTURE_LAST_PART character set (Uri.cpp lines 123-127). -/
def isIpvFutureLastPartChar (c : Char) : Bool :=
  isUnreservedChar c || isSubDelimsChar c || c == ':'

/-- Numeric value of a hexadecimal digit character. -/
def hexDigitValue (c : Char) : Nat :=
  if '0' ≤ c && c ≤ '9' then c.toNat - 48
  else if 'A' ≤ c && c ≤ 'F' then c.toNat - 55
  else c.toNat - 87

/-- Modelled from the spec: the state of `PercentEncodedCharacterDecoder`
(its source file `src/PercentEncodedCharacterDecoder.cpp` is not under
`src/`); spec section 4.2 gives state set AwaitingFirstDigit,
AwaitingSecondDigit, Done with accumulated byte value. -/
inductive PecState where
  | awaitingFirst : PecState
  | awaitingSecond : Nat → PecState
  | done : Nat → PecState
deriving Repr, DecidableEq

/-- Modelled from the spec: `PercentEncodedCharacterDecoder::NextEncodedCharacter`
(spec section 4.2): fails on a non-hex digit; after two valid hex digits the
decoded byte is `16*hi + lo`. -/
def nextEncodedCharacter : PecState → Char → Option PecState
  | PecState.awaitingFirst, c =>
      if isHexdigChar c then some (PecState.awaitingSecond (hexDigitValue c))
      else none
  | PecState.awaitingSecond hi, c =>
      if isHexdigChar c then some (PecState.done (16 * hi + hexDigitValue c))
      else none
  | PecState.done v, _ => some (PecState.done v)

/-- Decoder-loop state of the component decoders
(`decoderState` 0 and 1 in Uri.cpp). -/
inductive DecSt where
  | dflt : DecSt
  | esc : PecState → DecSt
deriving Repr, DecidableEq

/-- Shared structure of `DecodePathSegment` (Uri.cpp lines 233-266),
`DecodeQueryOrFragment` (lines 279-312) and the user-info decoding loop
(lines 432-460), parametrized by the character set used in state 0.
Returns the success flag and the output built so far (on failure the
partially decoded output, matching the in-place writes of the C++ code).
Note the loop returns success when the input ends, even in the middle of
a percent escape (the C++ loops have no final-state check). -/
def decodeLoop (inSet : Char → Bool) : List Char → DecSt → List Char → Bool × List Char
  | [], _, acc => (true, acc)
  | c :: rest, DecSt.dflt, acc =>
      if c = '%' then decodeLoop inSet rest (DecSt.esc PecState.awaitingFirst) acc
      else if inSet c then decodeLoop inSet rest DecSt.dflt (acc ++ [c])
      else (false, acc)
  | c :: rest, DecSt.esc ps, acc =>
      match nextEncodedCharacter ps c with
      | none => (false, acc)
      | some (PecState.done v) => decodeLoop inSet rest DecSt.dflt (acc ++ [Char.ofNat v])
      | some ps' => decodeLoop inSet rest (DecSt.esc ps') acc

/-- `DecodePathSegment` (Uri.cpp lines 233-266). -/
def decodePathSegment (s : List Char) : Bool × List Char :=
  decodeLoop isPcharNotPctEncoded s DecSt.dflt []

/-- `DecodeQueryOrFragment` (Uri.cpp lines 279-312). -/
def decodeQueryOrFragment (s : List Char) : Bool × List Char :=
  decodeLoop isQueryOrFragmentNotPctEncoded s DecSt.dflt []

/-- Loop body of `ParseUint16` (Uri.cpp lines 143-165).  `numberIn32Bits`
is a uint32, so each arithmetic step is reduced mod 2^32; the test
`(numberIn32Bits & ~((1 << 16) - 1)) != 0` is, for a uint32 value,
exactly `65536 ≤ numberIn32Bits`. -/
def parseUint16Loop : List Char → Nat → Option Nat
  | [], n => some n
  | c :: rest, n =>
      if c < '0' ∨ '9' < c then none
      else
        let n' := (n * 10 + (c.toNat - 48)) % 4294967296
        if 65536 ≤ n' then none
        else parseUint16Loop rest n'

/-- `ParseUint16` (Uri.cpp lines 143-165): the final store
`number = (uint16_t)numberIn32Bits` cannot truncate because the loop
rejects any intermediate value at or above 2^16. -/
def parseUint16 (cs : List Char) : Option Nat :=
  parseUint16Loop cs 0

/-- Loop of `FailsMatch` applied to `LegalSchemeCheckStrategy`
(Uri.cpp lines 182-220): the captured `isFirstCharacter` flag is threaded
explicitly; the final `stillPassing(' ', true)` call makes an empty
candidate fail. -/
def failsMatchSchemeLoop : List Char → Bool → Bool
  | [], isFirst => isFirst
  | c :: rest, isFirst =>
      if (if isFirst then isAlphaChar c else isSchemeNotFirstChar c) then
        failsMatchSchemeLoop rest false
      else true

/-- `FailsMatch(scheme, LegalSchemeCheckStrategy())` (Uri.cpp lines 595-600). -/
def failsMatchScheme (cs : List Char) : Bool :=
  failsMatchSchemeLoop cs true

/-- The fields of `Uri::Impl` (Uri.cpp lines 320-366). -/
structure UriState where
  scheme : List Char
  userInfo : List Char
  host : List Char
  hasPort : Bool
  port : Nat
  path : List (List Char)
  query : List Char
  fragment : List Char
deriving Repr, DecidableEq

/-- A default-constructed `Uri::Impl` (Uri.cpp lines 320-366: empty strings,
`hasPort = false`, `port = 0`). -/
def emptyUri : UriState :=
  ⟨[], [], [], false, 0, [], [], []⟩

/-- The split loop of `Uri::Impl::ParsePath` (Uri.cpp lines 388-401):
repeatedly find the first `/`, emit the piece before it, continue after
it; when no `/` remains, emit the rest and stop.  The find/substr loop of
the source is realized as a single left-to-right scan whose accumulator
holds the segment scanned so far (the part `substr` would take before the
next delimiter). -/
def splitPathAux : List Char → List Char → List (List Char)
  | [], acc => [acc]
  | c :: rest, acc =>
      if c = '/' then acc :: splitPathAux rest []
      else splitPathAux rest (acc ++ [c])

/-- The whole split loop of `Uri::Impl::ParsePath` started on the path
string. -/
def splitPathLoop (cs : List Char) : List (List Char) :=
  splitPathAux cs []

/-- Segment construction of `Uri::Impl::ParsePath` (Uri.cpp lines 380-402):
the special case for the path string `/`, the empty path string giving no
segments, and otherwise the split loop. -/
def parsePathSplit (ps : List Char) : List (List Char) :=
  if ps = ['/'] then [[]]
  else if ps = [] then []
  else splitPathLoop ps

/-- The decoding pass of `Uri::Impl::ParsePath` (Uri.cpp lines 403-408):
each segment is replaced in place by its decoding; on the first failure the
loop stops, leaving the earlier segments decoded, the failing one partially
decoded and the rest untouched. -/
def decodeSegments : List (List Char) → Bool × List (List Char)
  | [] => (true, [])
  | s :: rest =>
      let r := decodePathSegment s
      if r.1 then
        let r2 := decodeSegments rest
        (r2.1, r.2 :: r2.2)
      else (false, r.2 :: rest)

/-- `Uri::Impl::ParsePath` (Uri.cpp lines 380-409) acting on the implicit
`this` state. -/
def parsePathSt (st : UriState) (ps : List Char) : Bool × UriState :=
  let r := decodeSegments (parsePathSplit ps)
  (r.1, { st with path := r.2 })

/-- States of the host/port machine in `Uri::Impl::ParseAuthority`
(Uri.cpp `decoderState` 0-8 at lines 470-557). -/
inductive HPSt where
  | first : HPSt
  | regName : HPSt
  | pctHost : PecState → HPSt
  | lit : HPSt
  | ipv6 : HPSt
  | futHex : HPSt
  | futLast : HPSt
  | afterBracket : HPSt
  | portSt : HPSt
deriving Repr, DecidableEq

/-- The host/port loop of `Uri::Impl::ParseAuthority` (Uri.cpp lines
470-557), with the C++ fallthrough of state 0 into state 1 and of state 3
into state 4 written out explicitly.  Arguments: machine state, remaining
input, host built so far, port string built so far; result: success flag,
host, port string (on failure the partial host, matching the in-place
pushes of the C++ code). -/
def hostPortLoop : HPSt → List Char → List Char → List Char → Bool × List Char × List Char
  | _, [], h, p => (true, h, p)
  | HPSt.first, c :: rest, h, p =>
      if c = '[' then hostPortLoop HPSt.lit rest (h ++ [c]) p
      else
        -- fallthrough into state 1 on the same character
        if c = '%' then hostPortLoop (HPSt.pctHost PecState.awaitingFirst) rest h p
        else if c = ':' then hostPortLoop HPSt.portSt rest h p
        else if isRegNameNotPctEncoded c then hostPortLoop HPSt.regName rest (h ++ [c]) p
        else (false, h, p)
  | HPSt.regName, c :: rest, h, p =>
      if c = '%' then hostPortLoop (HPSt.pctHost PecState.awaitingFirst) rest h p
      else if c = ':' then hostPortLoop HPSt.portSt rest h p
      else if isRegNameNotPctEncoded c then hostPortLoop HPSt.regName rest (h ++ [c]) p
      else (false, h, p)
  | HPSt.pctHost ps, c :: rest, h, p =>
      match nextEncodedCharacter ps c with
      | none => (false, h, p)
      | some (PecState.done v) => hostPortLoop HPSt.regName rest (h ++ [Char.ofNat v]) p
      | some ps' => hostPortLoop (HPSt.pctHost ps') rest h p
  | HPSt.lit, c :: rest, h, p =>
      if c = 'v' then hostPortLoop HPSt.futHex rest (h ++ [c]) p
      else
        -- fallthrough into state 4 on the same character
        if c = ']' then hostPortLoop HPSt.afterBracket rest (h ++ [c]) p
        else hostPortLoop HPSt.ipv6 rest (h ++ [c]) p
  | HPSt.ipv6, c :: rest, h, p =>
      if c = ']' then hostPortLoop HPSt.afterBracket rest (h ++ [c]) p
      else hostPortLoop HPSt.ipv6 rest (h ++ [c]) p
  | HPSt.futHex, c :: rest, h, p =>
      if c = '.' then hostPortLoop HPSt.futLast rest (h ++ [c]) p
      else if isHexdigChar c then hostPortLoop HPSt.futHex rest (h ++ [c]) p
      else (false, h, p)
  | HPSt.futLast, c :: rest, h, p =>
      -- state 6 pushes the character before checking it
      if c = ']' then hostPortLoop HPSt.afterBracket rest (h ++ [c]) p
      else if isIpvFutureLastPartChar c then hostPortLoop HPSt.futLast rest (h ++ [c]) p
      else (false, h ++ [c], p)
  | HPSt.afterBracket, c :: rest, h, p =>
      if c = ':' then hostPortLoop HPSt.portSt rest h p
      else (false, h, p)
  | HPSt.portSt, c :: rest, h, p =>
      hostPortLoop HPSt.portSt rest h (p ++ [c])

/-- Host and port handling of `Uri::Impl::ParseAuthority` (Uri.cpp lines
464-566): run the host/port machine, then interpret the collected port
string; an empty port string clears `hasPort`, a bad port string fails
leaving `hasPort`/`port` untouched. -/
def hostPortStage (st : UriState) (hostPort : List Char) : Bool × UriState :=
  let r := hostPortLoop HPSt.first hostPort [] []
  let st1 := { st with host := r.2.1 }
  if r.1 then
    if r.2.2 = [] then (true, { st1 with hasPort := false })
    else
      match parseUint16 r.2.2 with
      | none => (false, st1)
      | some n => (true, { st1 with hasPort := true, port := n })
  else (false, st1)

/-- `Uri::Impl::ParseAuthority` (Uri.cpp lines 423-567): split at the first
`@`; the part before it (if any) is the user info, decoded against
USER_INFO_NOT_PCT_ENCODED (partial on failure); the rest is host and port. -/
def parseAuthoritySt (st : UriState) (authorityString : List Char) : Bool × UriState :=
  match authorityString.dropWhile (· != '@') with
  | [] => hostPortStage { st with userInfo := [] } authorityString
  | _ :: after =>
      let r := decodeLoop isUserInfoNotPctEncoded
        (authorityString.takeWhile (· != '@')) DecSt.dflt []
      let st1 := { st with userInfo := r.2 }
      if r.1 then hostPortStage st1 after else (false, st1)

/-- Fragment and query handling of `Uri::ParseFromString` (Uri.cpp lines
639-661): split `queryAndOrFragment` at the first `#`; the part after it is
the fragment; the remainder minus its leading character (the `?`) is the
query; both are decoded in place. -/
def fragmentQueryStage (st : UriState) (qaf : List Char) : Bool × UriState :=
  -- fr.1 is the raw fragment (after the first hash sign, empty when there is
  -- none), fr.2 the remainder before it (`rest` in the C++ code)
  let fr := match qaf.dropWhile (· != '#') with
    | [] => (([] : List Char), qaf)
    | _ :: after => (after, qaf.takeWhile (· != '#'))
  let rf := decodeQueryOrFragment fr.1
  let st4 := { st with fragment := rf.2 }
  if rf.1 then
    -- the raw query is the remainder minus its leading question mark
    -- (`rest.substr(1)`, and the empty remainder gives an empty query)
    let rq := decodeQueryOrFragment fr.2.tail
    let st5 := { st4 with query := rq.2 }
    if rq.1 then (true, st5) else (false, st5)
  else (false, st4)

/-- Path, fragment and query stages of `Uri::ParseFromString`
(Uri.cpp lines 634-661). -/
def parsePathOnward (st : UriState) (pathString qaf : List Char) : Bool × UriState :=
  let rp := parsePathSt st pathString
  if rp.1 then fragmentQueryStage rp.2 qaf else (false, rp.2)

/-- Test for the authority marker `//` at the start of the
authority-and-path string (Uri.cpp line 611). -/
def startsWithDoubleSlash : List Char → Bool
  | '/' :: '/' :: _ => true
  | _ => false

/-- Authority, path, fragment and query stages of `Uri::ParseFromString`
(Uri.cpp lines 606-661): split the rest at the first `?` or `#`; if the
part before starts with `//`, parse an authority and the path after it,
otherwise clear user info, host and port flag and treat the whole part as
the path. -/
def parseAfterScheme (st : UriState) (rest : List Char) : Bool × UriState :=
  let authorityAndPath := rest.takeWhile (fun c => c != '?' && c != '#')
  let qaf := rest.dropWhile (fun c => c != '?' && c != '#')
  if startsWithDoubleSlash authorityAndPath then
    let ap := authorityAndPath.drop 2
    let authorityString := ap.takeWhile (· != '/')
    let pathString := ap.dropWhile (· != '/')
    let ra := parseAuthoritySt st authorityString
    if ra.1 then parsePathOnward ra.2 pathString qaf else (false, ra.2)
  else
    parsePathOnward { st with userInfo := [], host := [], hasPort := false }
      authorityAndPath qaf

/-- Scheme stage of `Uri::ParseFromString` (Uri.cpp lines 577-604): the
colon is searched only in the part before the first `/`; if found, the
scheme candidate is stored (before validation, as in the source) and
validated; the rest of the string follows the colon. -/
def schemeStage (st : UriState) (uriString : List Char) : Bool × UriState × List Char :=
  match (uriString.takeWhile (· != '/')).dropWhile (· != ':') with
  | [] => (true, { st with scheme := [] }, uriString)
  | _ :: _ =>
      let schemeCand := (uriString.takeWhile (· != '/')).takeWhile (· != ':')
      let st1 := { st with scheme := schemeCand }
      if failsMatchScheme schemeCand then (false, st1, [])
      else (true, st1, (uriString.dropWhile (· != ':')).tail)

/-- The rest of the input after the scheme stage, as a function of the
input alone (the value `rest` computed by Uri.cpp lines 583-604 on the
success path). -/
def restAfterScheme (uriString : List Char) : List Char :=
  match (uriString.takeWhile (· != '/')).dropWhile (· != ':') with
  | [] => uriString
  | _ :: _ => (uriString.dropWhile (· != ':')).tail

/-- The `authorityAndPathString` computed by Uri.cpp lines 607-608, as a
function of the input alone. -/
def authorityAndPathOf (uriString : List Char) : List Char :=
  (restAfterScheme uriString).takeWhile (fun c => c != '?' && c != '#')

/-- `Uri::ParseFromString` (Uri.cpp lines 577-662): returns the success
flag and the `Uri::Impl` state as left by the call (on failure, the
partially updated state). -/
def parseFromString (st : UriState) (uriString : List Char) : Bool × UriState :=
  let sr := schemeStage st uriString
  if sr.1 then parseAfterScheme sr.2.1 sr.2.2 else (false, sr.2.1)

/-! Specification-side definitions, used to compare the code with the
spec's wording. -/

/-- The plain split of a string on `/`, following the spec's phrase
"parse pathString into segments by splitting on `/`" (spec section 4.3,
stage 4); defined independently of the source loop for comparison. -/
def splitOnSlash : List Char → List (List Char)
  | [] => [[]]
  | c :: rest =>
      if c = '/' then [] :: splitOnSlash rest
      else
        match splitOnSlash rest with
        | [] => [[c]]
        | seg :: segs => (c :: seg) :: segs

/-- The decimal value of a digit string, following the spec's phrase
"port equal to the decimal value" (spec section 4.3, stage 3). -/
def decimalValue (cs : List Char) : Nat :=
  cs.foldl (fun n c => n * 10 + (c.toNat - 48)) 0

/-- Modelled from the spec: `Uri::NormalizePath` (its implementation is
not under `src/`; only the tests call it).  Spec section 4.4: traverse the
segment list keeping an output sequence; a `.` segment is discarded; a
`..` segment pops the last output element unless the output is empty or is
exactly the one-element list holding the empty segment (the absolute-root
marker); every other segment is appended. -/
def normalizeAux : List (List Char) → List (List Char) → List (List Char)
  | out, [] => out
  | out, s :: rest =>
      if s = ['.'] then normalizeAux out rest
      else if s = ['.', '.'] then
        if out = [] ∨ out = [[]] then normalizeAux out rest
        else normalizeAux out.dropLast rest
      else normalizeAux (out ++ [s]) rest

/-- Modelled from the spec: the whole dot-segment-removal pass of
`Uri::NormalizePath` over a path segment sequence (spec section 4.4). -/
def normalizePath (p : List (List Char)) : List (List Char) :=
  normalizeAux [] p

/-! General lemmas about the embedded functions. -/

/-- A `dropWhile` with an inequality test returns `[]` exactly on lists
avoiding the tested character. -/
theorem dropWhileBneNil (x : Char) (l : List Char) (h : ∀ c ∈ l, c ≠ x) :
    l.dropWhile (· != x) = [] := by
  rw [List.dropWhile_eq_nil_iff]
  intro c hc
  simpa [bne_iff_ne] using h c hc

/-- The port state of the host/port machine consumes the whole remaining
input into the port string and always succeeds. -/
theorem hostPortLoopPortConsumes (cs h p : List Char) :
    hostPortLoop HPSt.portSt cs h p = (true, h, p ++ cs) := by
  induction cs generalizing p with
  | nil => simp [hostPortLoop]
  | cons c cs ih => rw [hostPortLoop, ih]; simp

/-- A run of plain in-set characters (no percent sign) passes through the
component decoder unchanged, leaving the trailing input to be processed. -/
theorem decodeLoopAppendPlain (inSet : Char → Bool) (t rest acc : List Char)
    (h : ∀ c ∈ t, inSet c = true ∧ c ≠ '%') :
    decodeLoop inSet (t ++ rest) DecSt.dflt acc =
      decodeLoop inSet rest DecSt.dflt (acc ++ t) := by
  induction t generalizing acc with
  | nil => simp
  | cons c t ih =>
      obtain ⟨hin, hne⟩ := h c (by simp)
      rw [List.cons_append, decodeLoop, if_neg hne, if_pos hin,
        ih (acc ++ [c]) (fun d hd => h d (by simp [hd]))]
      simp

/-- On the success path the scheme stage returns `restAfterScheme`. -/
theorem schemeStageRest (st : UriState) (s : List Char)
    (h : (schemeStage st s).1 = true) :
    (schemeStage st s).2.2 = restAfterScheme s := by
  unfold schemeStage at h ⊢
  unfold restAfterScheme
  rcases hd : (s.takeWhile (· != '/')).dropWhile (· != ':') with _ | ⟨c, cs⟩
  · simp
  · rw [hd] at h
    by_cases hf : failsMatchScheme ((s.takeWhile (· != '/')).takeWhile (· != ':')) = true
    · simp [hf] at h
    · simp [hf]

/-- The fragment and query stage never touches user info, host, port flag,
port, scheme or path. -/
theorem fragmentQueryStageFields (st : UriState) (qaf : List Char) :
    (fragmentQueryStage st qaf).2.userInfo = st.userInfo ∧
    (fragmentQueryStage st qaf).2.host = st.host ∧
    (fragmentQueryStage st qaf).2.hasPort = st.hasPort ∧
    (fragmentQueryStage st qaf).2.port = st.port ∧
    (fragmentQueryStage st qaf).2.scheme = st.scheme ∧
    (fragmentQueryStage st qaf).2.path = st.path := by
  simp only [fragmentQueryStage]
  split_ifs <;> simp

/-- The path stage only replaces the path field. -/
theorem parsePathStSnd (st : UriState) (ps : List Char) :
    (parsePathSt st ps).2 = { st with path := (decodeSegments (parsePathSplit ps)).2 } :=
  rfl

/-- A character passing the digit test has code between 48 and 57. -/
theorem isDigitCharToNat (c : Char) (h : isDigitChar c = true) :
    48 ≤ c.toNat ∧ c.toNat ≤ 57 := by
  simp only [isDigitChar, Bool.and_eq_true, decide_eq_true_eq] at h
  exact ⟨h.1, h.2⟩

/-- A character failing the digit test is outside the range tested by
`ParseUint16`. -/
theorem isDigitCharFalse (c : Char) (h : isDigitChar c = false) :
    c < '0' ∨ '9' < c := by
  have hno : ¬('0' ≤ c ∧ c ≤ '9') := by
    intro hc
    simp [isDigitChar, hc.1, hc.2] at h
  rcases not_and_or.mp hno with hc | hc
  · exact Or.inl (not_le.mp hc)
  · exact Or.inr (not_le.mp hc)

/-- A character in the digit range passes the range test of
`ParseUint16`. -/
theorem digitNotOutside (c : Char) (h48 : 48 ≤ c.toNat) (h57 : c.toNat ≤ 57) :
    ¬(c < '0' ∨ '9' < c) := by
  intro hor
  rcases hor with h1 | h1
  · exact absurd (show c.toNat < 48 from h1) (by omega)
  · exact absurd (show 57 < c.toNat from h1) (by omega)

/-- The decimal accumulator never decreases. -/
theorem foldlDigitsGe (cs : List Char) (n : Nat) :
    n ≤ cs.foldl (fun n c => n * 10 + (c.toNat - 48)) n := by
  induction cs generalizing n with
  | nil => exact Nat.le_refl n
  | cons c cs ih =>
      simp only [List.foldl_cons]
      exact le_trans (by omega) (ih (n * 10 + (c.toNat - 48)))

/-- `ParseUint16` loop, success case: on an all-digit string whose value
fits, it returns the decimal value. -/
theorem parseUint16LoopDigits (cs : List Char) : ∀ n, n ≤ 65535 →
    (∀ c ∈ cs, isDigitChar c = true) →
    cs.foldl (fun n c => n * 10 + (c.toNat - 48)) n ≤ 65535 →
    parseUint16Loop cs n = some (cs.foldl (fun n c => n * 10 + (c.toNat - 48)) n) := by
  induction cs with
  | nil => intro n _ _ _; simp [parseUint16Loop]
  | cons c cs ih =>
      intro n hn hd hv
      obtain ⟨h48, h57⟩ := isDigitCharToNat c (hd c (by simp))
      rw [List.foldl_cons] at hv ⊢
      have hle : n * 10 + (c.toNat - 48) ≤ 65535 :=
        le_trans (foldlDigitsGe cs (n * 10 + (c.toNat - 48))) hv
      have hmod : (n * 10 + (c.toNat - 48)) % 4294967296 = n * 10 + (c.toNat - 48) :=
        Nat.mod_eq_of_lt (by omega)
      simp only [parseUint16Loop]
      rw [if_neg (digitNotOutside c h48 h57), hmod, if_neg (by omega)]
      exact ih (n * 10 + (c.toNat - 48)) hle (fun d hd' => hd d (by simp [hd'])) hv

/-- `ParseUint16` loop, failure case: any non-digit character makes it
return `none`. -/
theorem parseUint16LoopNonDigit (cs : List Char) : ∀ n,
    (∃ c ∈ cs, isDigitChar c = false) → parseUint16Loop cs n = none := by
  induction cs with
  | nil => intro n h; simp at h
  | cons c cs ih =>
      intro n h
      simp only [parseUint16Loop]
      by_cases hc : isDigitChar c = true
      · have hbad : ∃ d ∈ cs, isDigitChar d = false := by
          rcases h with ⟨d, hdmem, hdf⟩
          rcases List.mem_cons.mp hdmem with rfl | hdmem'
          · rw [hc] at hdf; cases hdf
          · exact ⟨d, hdmem', hdf⟩
        obtain ⟨h48, h57⟩ := isDigitCharToNat c hc
        rw [if_neg (digitNotOutside c h48 h57)]
        split
        · rfl
        · exact ih _ hbad
      · have hout := isDigitCharFalse c (by revert hc; cases isDigitChar c <;> simp)
        rw [if_pos hout]

/-- `ParseUint16` loop, overflow case: an all-digit string whose value
exceeds 65535 makes it return `none`. -/
theorem parseUint16LoopTooBig (cs : List Char) : ∀ n, n ≤ 65535 →
    (∀ c ∈ cs, isDigitChar c = true) →
    65535 < cs.foldl (fun n c => n * 10 + (c.toNat - 48)) n →
    parseUint16Loop cs n = none := by
  induction cs with
  | nil =>
      intro n hn _ hv
      simp only [List.foldl_nil] at hv
      omega
  | cons c cs ih =>
      intro n hn hd hv
      obtain ⟨h48, h57⟩ := isDigitCharToNat c (hd c (by simp))
      rw [List.foldl_cons] at hv
      have hmod : (n * 10 + (c.toNat - 48)) % 4294967296 = n * 10 + (c.toNat - 48) :=
        Nat.mod_eq_of_lt (by omega)
      simp only [parseUint16Loop]
      rw [if_neg (digitNotOutside c h48 h57), hmod]
      by_cases hbig : 65536 ≤ n * 10 + (c.toNat - 48)
      · rw [if_pos hbig]
      · rw [if_neg hbig]
        exact ih _ (by omega) (fun d hd' => hd d (by simp [hd'])) hv

/-- The plain split never returns an empty list of segments. -/
theorem splitOnSlashNeNil (cs : List Char) : splitOnSlash cs ≠ [] := by
  cases cs with
  | nil => simp [splitOnSlash]
  | cons c rest =>
      unfold splitOnSlash
      split
      · simp
      · split <;> simp

/-- The split scan with accumulator `acc` prepends `acc` to the first
segment of the plain split. -/
theorem splitPathAuxSpec (cs : List Char) : ∀ acc,
    splitPathAux cs acc =
      match splitOnSlash cs with
      | [] => [acc]
      | g :: gs => (acc ++ g) :: gs := by
  induction cs with
  | nil => intro acc; simp [splitPathAux, splitOnSlash]
  | cons c rest ih =>
      intro acc
      rcases hsp : splitOnSlash rest with _ | ⟨g, gs⟩
      · exact absurd hsp (splitOnSlashNeNil rest)
      · by_cases hc : c = '/'
        · subst hc
          rw [splitPathAux, if_pos rfl, splitOnSlash, if_pos rfl, hsp,
            ih [], hsp]
          simp
        · rw [splitPathAux, if_neg hc, splitOnSlash, if_neg hc, hsp,
            ih (acc ++ [c]), hsp]
          simp

/-- The source split loop computes the plain split on `/`. -/
theorem splitPathLoopEq (cs : List Char) : splitPathLoop cs = splitOnSlash cs := by
  unfold splitPathLoop
  rw [splitPathAuxSpec cs []]
  rcases hsp : splitOnSlash cs with _ | ⟨g, gs⟩
  · exact absurd hsp (splitOnSlashNeNil cs)
  · simp

/-- The normalized output never contains a dot segment. -/
theorem normalizeAuxNoDots (p : List (List Char)) : ∀ out,
    (∀ s ∈ out, s ≠ ['.'] ∧ s ≠ ['.', '.']) →
    ∀ s ∈ normalizeAux out p, s ≠ ['.'] ∧ s ≠ ['.', '.'] := by
  induction p with
  | nil => intro out h; simpa [normalizeAux] using h
  | cons s rest ih =>
      intro out h
      rw [normalizeAux]
      by_cases h1 : s = ['.']
      · rw [if_pos h1]; exact ih out h
      · rw [if_neg h1]
        by_cases h2 : s = ['.', '.']
        · rw [if_pos h2]
          by_cases h3 : out = [] ∨ out = [[]]
          · rw [if_pos h3]; exact ih out h
          · rw [if_neg h3]
            exact ih out.dropLast (fun t ht => h t (List.mem_of_mem_dropLast ht))
        · rw [if_neg h2]
          refine ih (out ++ [s]) ?_
          intro t ht
          rcases List.mem_append.mp ht with ht' | ht'
          · exact h t ht'
          · rw [List.mem_singleton.mp ht']
            exact ⟨h1, h2⟩

/-- On a dot-free segment list the normalizer is a plain append. -/
theorem normalizeAuxNoDotsAppend (p : List (List Char)) : ∀ out,
    (∀ s ∈ p, s ≠ ['.'] ∧ s ≠ ['.', '.']) →
    normalizeAux out p = out ++ p := by
  induction p with
  | nil => intro out _; simp [normalizeAux]
  | cons s rest ih =>
      intro out h
      obtain ⟨h1, h2⟩ := h s (by simp)
      rw [normalizeAux, if_neg h1, if_neg h2,
        ih (out ++ [s]) (fun t ht => h t (by simp [ht]))]
      simp

/-- The path, fragment and query stages never touch user info, host, port
flag, port or scheme. -/
theorem parsePathOnwardFields (st : UriState) (ps qaf : List Char) :
    (parsePathOnward st ps qaf).2.userInfo = st.userInfo ∧
    (parsePathOnward st ps qaf).2.host = st.host ∧
    (parsePathOnward st ps qaf).2.hasPort = st.hasPort ∧
    (parsePathOnward st ps qaf).2.port = st.port ∧
    (parsePathOnward st ps qaf).2.scheme = st.scheme := by
  simp only [parsePathOnward]
  split
  · rw [parsePathStSnd]
    obtain ⟨h1, h2, h3, h4, h5, h6⟩ :=
      fragmentQueryStageFields { st with path := (decodeSegments (parsePathSplit ps)).2 } qaf
    exact ⟨h1, h2, h3, h4, h5⟩
  · simp [parsePathStSnd]

/-! Claim theorems. -/

/-- C1 (counterexample): the parse of `http://www.example.com:spam/` from a
fresh `Uri` fails, yet the scheme and host fields hold data derived from the
failed input, so the parse is not atomic as the claim states. -/
theorem c1_counterexample :
    (parseFromString emptyUri ("http://www.example.com:spam/".toList)).1 = false ∧
    (parseFromString emptyUri ("http://www.example.com:spam/".toList)).2.scheme = "http".toList ∧
    (parseFromString emptyUri ("http://www.example.com:spam/".toList)).2.host = "www.example.com".toList :=
  ⟨rfl, rfl, rfl⟩

/-- C1 (amended): a failing parse may leave components holding data derived
from the failed input; from any starting state, parsing
`http://www.example.com:spam/` fails and leaves `scheme = "http"` and
`host = "www.example.com"` (taken from the failed input) while `hasPort`,
`port`, `path`, `query` and `fragment` keep their previous values. -/
theorem c1_failure_leaves_partial_state (st : UriState) :
    parseFromString st ("http://www.example.com:spam/".toList) =
      (false, { st with scheme := "http".toList, userInfo := [],
                        host := "www.example.com".toList }) :=
  rfl

/-- C2 (code behavior at the failing input): the code stores the scheme
verbatim, so `HTTP://x` parses with scheme `HTTP`, not the lower-cased
`http` required by the claim and by the repository's own test
`ParseFromStringSchemeMixedCase`. -/
theorem c2_scheme_not_lowercased :
    (parseFromString emptyUri ("HTTP://x".toList)).1 = true ∧
    (parseFromString emptyUri ("HTTP://x".toList)).2.scheme = "HTTP".toList ∧
    (parseFromString emptyUri ("http://x".toList)).1 = true ∧
    (parseFromString emptyUri ("http://x".toList)).2.scheme = "http".toList ∧
    (parseFromString emptyUri ("HTTP://x".toList)).2.scheme ≠
      (parseFromString emptyUri ("http://x".toList)).2.scheme :=
  ⟨rfl, rfl, rfl, rfl, by decide⟩

/-- C3 (code behavior at the failing input): the code stores a reg-name
host verbatim, so `http://WWW.EXAMPLE.com/` parses with host
`WWW.EXAMPLE.com`, not the lower-cased `www.example.com` required by the
claim and by the repository's own test `ParseFromStringHostMixedCase`. -/
theorem c3_host_not_lowercased :
    (parseFromString emptyUri ("http://WWW.EXAMPLE.com/".toList)).1 = true ∧
    (parseFromString emptyUri ("http://WWW.EXAMPLE.com/".toList)).2.host = "WWW.EXAMPLE.com".toList ∧
    (parseFromString emptyUri ("http://WWW.EXAMPLE.com/".toList)).2.host ≠ "www.example.com".toList :=
  ⟨rfl, rfl, by decide⟩

/-- C4 (counterexample): the input `%4` ends in the middle of a percent
escape, yet `ParseFromString` succeeds (with path `[""]`), contradicting
the claim that a cut-off escape fails the parse. -/
theorem c4_counterexample :
    (parseFromString emptyUri ("%4".toList)).1 = true ∧
    (parseFromString emptyUri ("%4".toList)).2.path = [[]] :=
  ⟨rfl, rfl⟩

/-- C4 (amended): a percent escape cut off at the end of its component
does not fail the parse; the decoding loops return success at end of
input even mid-escape, dropping the incomplete escape: for any segment of
plain in-set characters, appending `%` or `%` plus one hex digit decodes
to the segment itself, and the full parse of `%4` succeeds. -/
theorem c4_truncated_escape_accepted (t : List Char)
    (h : ∀ c ∈ t, isPcharNotPctEncoded c = true ∧ c ≠ '%') :
    decodePathSegment (t ++ ['%']) = (true, t) ∧
    (∀ d, isHexdigChar d = true → decodePathSegment (t ++ ['%', d]) = (true, t)) ∧
    (parseFromString emptyUri ("%4".toList)).1 = true := by
  refine ⟨?_, ?_, by rfl⟩
  · unfold decodePathSegment
    rw [decodeLoopAppendPlain _ t ['%'] [] h, List.nil_append]
    rfl
  · intro d hd
    unfold decodePathSegment
    rw [decodeLoopAppendPlain _ t ['%', d] [] h, List.nil_append]
    show decodeLoop isPcharNotPctEncoded [d] (DecSt.esc PecState.awaitingFirst) t = (true, t)
    simp [decodeLoop, nextEncodedCharacter, hd]

/-- C4 (witness for the amended theorem at a concrete input). -/
theorem c4_truncated_escape_accepted_witness :
    decodePathSegment (['a'] ++ ['%']) = (true, ['a']) :=
  (c4_truncated_escape_accepted ['a'] (by decide)).1

/-- C5 (counterexample): the input `//[::1` has an unterminated
IP-literal, yet `ParseFromString` succeeds with the partial literal kept
as the host, contradicting the claim that an unterminated `[...]`
fails. -/
theorem c5_counterexample :
    (parseFromString emptyUri ("//[::1".toList)).1 = true ∧
    (parseFromString emptyUri ("//[::1".toList)).2.host = "[::1".toList :=
  ⟨rfl, rfl⟩

/-- C5 (amended): an unterminated IP-literal does not fail the parse —
the bracketed run is accepted up to the end of the host portion (so
`//[::1` parses with host `[::1`) — but any character other than `:`
after the closing `]` does fail: in the after-bracket state the host/port
machine rejects every non-colon character, and the full parse of
`//[::1]x` fails. -/
theorem c5_bracket_handling (h p cs : List Char) (c : Char) (hc : c ≠ ':') :
    hostPortLoop HPSt.afterBracket (c :: cs) h p = (false, h, p) ∧
    (parseFromString emptyUri ("//[::1".toList)).1 = true ∧
    (parseFromString emptyUri ("//[::1".toList)).2.host = "[::1".toList ∧
    (parseFromString emptyUri ("//[::1]x".toList)).1 = false := by
  refine ⟨?_, by rfl, by rfl, by rfl⟩
  rw [hostPortLoop, if_neg hc]

/-- C5 (witness for the amended theorem at a concrete input). -/
theorem c5_bracket_handling_witness :
    hostPortLoop HPSt.afterBracket ['x'] [] [] = (false, [], []) :=
  (c5_bracket_handling [] [] [] 'x' (by decide)).1

/-- C7: the colon is taken as the scheme delimiter only when it occurs
before the first slash — if the prefix of the input preceding the first
`/` holds no colon, the scheme stage leaves the scheme empty and hands
the whole input on — and in particular `/:/foo`, `//h/a:b` and
`//[v7.:]/` all parse successfully with an empty scheme. -/
theorem c7_scheme_colon_scope :
    (∀ (st : UriState) (s : List Char),
        (∀ c ∈ s.takeWhile (· != '/'), c ≠ ':') →
        schemeStage st s = (true, { st with scheme := [] }, s)) ∧
    (parseFromString emptyUri ("/:/foo".toList)).1 = true ∧
    (parseFromString emptyUri ("/:/foo".toList)).2.scheme = [] ∧
    (parseFromString emptyUri ("//h/a:b".toList)).1 = true ∧
    (parseFromString emptyUri ("//h/a:b".toList)).2.scheme = [] ∧
    (parseFromString emptyUri ("//[v7.:]/".toList)).1 = true ∧
    (parseFromString emptyUri ("//[v7.:]/".toList)).2.scheme = [] := by
  refine ⟨?_, by rfl, by rfl, by rfl, by rfl, by rfl, by rfl⟩
  intro st s h
  unfold schemeStage
  rw [dropWhileBneNil ':' _ h]

/-- C7 (witness at a concrete input). -/
theorem c7_scheme_colon_scope_witness :
    schemeStage emptyUri ("/:/foo".toList) =
      (true, { emptyUri with scheme := [] }, "/:/foo".toList) :=
  c7_scheme_colon_scope.1 emptyUri ("/:/foo".toList) (by decide)

/-- C8: the path string `/` parses to the single-element path `[""]`, the
empty path string parses to the empty path, and every other path string
is split on `/` exactly as the plain split (then each segment is
decoded). -/
theorem c8_path_split_spec (st : UriState) (s : List Char)
    (h1 : s ≠ []) (h2 : s ≠ ['/']) :
    parsePathSt st ['/'] = (true, { st with path := [[]] }) ∧
    parsePathSt st [] = (true, { st with path := [] }) ∧
    parsePathSt st s =
      ((decodeSegments (splitOnSlash s)).1,
        { st with path := (decodeSegments (splitOnSlash s)).2 }) := by
  refine ⟨by rfl, by rfl, ?_⟩
  unfold parsePathSt parsePathSplit
  rw [if_neg h2, if_neg h1, splitPathLoopEq]

/-- C8 (witness at a concrete input). -/
theorem c8_path_split_spec_witness :
    parsePathSt emptyUri ("a/b".toList) =
      ((decodeSegments (splitOnSlash ("a/b".toList))).1,
        { emptyUri with path := (decodeSegments (splitOnSlash ("a/b".toList))).2 }) :=
  (c8_path_split_spec emptyUri ("a/b".toList) (by decide) (by decide)).2.2

/-- Splitting at the user-info delimiter finds nothing when the authority
holds no at sign. -/
theorem parseAuthorityHostColon (st : UriState) (pstr : List Char)
    (hAt : ∀ c ∈ pstr, c ≠ '@') :
    parseAuthoritySt st ('h' :: ':' :: pstr) =
      hostPortStage { st with userInfo := [] } ('h' :: ':' :: pstr) := by
  unfold parseAuthoritySt
  have hdrop : ('h' :: ':' :: pstr).dropWhile (· != '@') = [] := by
    apply dropWhileBneNil
    intro c hc
    rcases List.mem_cons.mp hc with rfl | hc
    · decide
    · rcases List.mem_cons.mp hc with rfl | hc
      · decide
      · exact hAt c hc
  rw [hdrop]

/-- The host/port machine on `h:` followed by a port string accepts host
`h` and collects the whole remainder as the port string. -/
theorem hostPortLoopHColon (pstr : List Char) :
    hostPortLoop HPSt.first ('h' :: ':' :: pstr) [] [] = (true, ['h'], pstr) := by
  have h1 : hostPortLoop HPSt.first ('h' :: ':' :: pstr) [] [] =
      hostPortLoop HPSt.portSt pstr ['h'] [] := rfl
  rw [h1, hostPortLoopPortConsumes]
  simp

/-- C6: after the host is followed by a colon delimiter, an empty port
string gives a successful parse with `hasPort` false; a nonempty port
string succeeds with `hasPort` true and `port` equal to its decimal value
exactly when every character is a decimal digit and the value is at most
65535, and fails otherwise; in particular `http://h:65535/` parses with
port 65535 while `http://h:65536/` and `http://h:spam/` fail. -/
theorem c6_port_semantics (st : UriState) (pstr : List Char)
    (hAt : ∀ c ∈ pstr, c ≠ '@') :
    (pstr = [] →
      parseAuthoritySt st ('h' :: ':' :: pstr) =
        (true, { st with userInfo := [], host := ['h'], hasPort := false })) ∧
    ((∀ c ∈ pstr, isDigitChar c = true) → decimalValue pstr ≤ 65535 → pstr ≠ [] →
      parseAuthoritySt st ('h' :: ':' :: pstr) =
        (true, { st with userInfo := [], host := ['h'], hasPort := true,
                         port := decimalValue pstr })) ∧
    (¬((∀ c ∈ pstr, isDigitChar c = true) ∧ decimalValue pstr ≤ 65535) → pstr ≠ [] →
      parseAuthoritySt st ('h' :: ':' :: pstr) =
        (false, { st with userInfo := [], host := ['h'] })) ∧
    parseFromString emptyUri ("http://h:65535/".toList) =
      (true, ⟨"http".toList, [], ['h'], true, 65535, [[]], [], []⟩) ∧
    (parseFromString emptyUri ("http://h:65536/".toList)).1 = false ∧
    (parseFromString emptyUri ("http://h:spam/".toList)).1 = false := by
  refine ⟨?_, ?_, ?_, by rfl, by rfl, by rfl⟩
  · intro hp
    subst hp
    rfl
  · intro hdig hval hne
    rw [parseAuthorityHostColon st pstr hAt]
    simp only [hostPortStage]
    rw [hostPortLoopHColon]
    dsimp only
    rw [if_pos rfl, if_neg hne]
    have hp16 : parseUint16 pstr = some (decimalValue pstr) :=
      parseUint16LoopDigits pstr 0 (by omega) hdig hval
    rw [hp16]
  · intro hbad hne
    rw [parseAuthorityHostColon st pstr hAt]
    simp only [hostPortStage]
    rw [hostPortLoopHColon]
    dsimp only
    rw [if_pos rfl, if_neg hne]
    have hp16 : parseUint16 pstr = none := by
      by_cases hdig : ∀ c ∈ pstr, isDigitChar c = true
      · have hv : 65535 < decimalValue pstr := by
          rcases not_and_or.mp hbad with hb | hb
          · exact absurd hdig hb
          · omega
        exact parseUint16LoopTooBig pstr 0 (by omega) hdig hv
      · have hex : ∃ c ∈ pstr, isDigitChar c = false := by
          push_neg at hdig
          simpa using hdig
        exact parseUint16LoopNonDigit pstr 0 hex
    rw [hp16]

/-- C6 (witness at a concrete input). -/
theorem c6_port_semantics_witness :
    parseAuthoritySt emptyUri ('h' :: ':' :: ['8', '0']) =
      (true, { emptyUri with userInfo := [], host := ['h'], hasPort := true,
                             port := 80 }) :=
  (c6_port_semantics emptyUri ['8', '0'] (by decide)).2.1 (by decide) (by decide) (by decide)

/-- C10: when the authority-and-path portion of the input does not begin
with `//`, a successful parse leaves the user info empty, the host empty
and the port flag cleared, whatever values a previous parse left in those
fields. -/
theorem c10_no_authority_clears (st : UriState) (s : List Char)
    (hok : (parseFromString st s).1 = true)
    (hna : startsWithDoubleSlash (authorityAndPathOf s) = false) :
    (parseFromString st s).2.userInfo = [] ∧
    (parseFromString st s).2.host = [] ∧
    (parseFromString st s).2.hasPort = false := by
  by_cases hsr : (schemeStage st s).1 = true
  · have hrest := schemeStageRest st s hsr
    simp only [parseFromString] at hok ⊢
    rw [if_pos hsr] at hok ⊢
    rw [hrest] at hok ⊢
    simp only [parseAfterScheme] at hok ⊢
    have hcond : ¬(startsWithDoubleSlash
        ((restAfterScheme s).takeWhile fun c => c != '?' && c != '#') = true) := by
      unfold authorityAndPathOf at hna
      simp [hna]
    rw [if_neg hcond] at hok ⊢
    obtain ⟨f1, f2, f3, _, _⟩ := parsePathOnwardFields
      { (schemeStage st s).2.1 with userInfo := [], host := [], hasPort := false }
      ((restAfterScheme s).takeWhile fun c => c != '?' && c != '#')
      ((restAfterScheme s).dropWhile fun c => c != '?' && c != '#')
    exact ⟨f1, f2, f3⟩
  · exfalso
    simp only [parseFromString] at hok
    rw [if_neg hsr] at hok
    exact Bool.false_ne_true hok

/-- C10 (witness at a concrete input). -/
theorem c10_no_authority_clears_witness :
    (parseFromString
        { emptyUri with userInfo := "joe".toList, host := "www.example.com".toList,
                        hasPort := true, port := 8080 }
        ("/foo/bar".toList)).2.userInfo = [] ∧
    (parseFromString
        { emptyUri with userInfo := "joe".toList, host := "www.example.com".toList,
                        hasPort := true, port := 8080 }
        ("/foo/bar".toList)).2.host = [] ∧
    (parseFromString
        { emptyUri with userInfo := "joe".toList, host := "www.example.com".toList,
                        hasPort := true, port := 8080 }
        ("/foo/bar".toList)).2.hasPort = false :=
  c10_no_authority_clears
    { emptyUri with userInfo := "joe".toList, host := "www.example.com".toList,
                    hasPort := true, port := 8080 }
    ("/foo/bar".toList) (by decide) (by decide)

/-- C9: the dot-segment-removal normalization is idempotent — normalizing
twice yields the same path sequence as normalizing once. -/
theorem c9_normalize_idempotent (p : List (List Char)) :
    normalizePath (normalizePath p) = normalizePath p := by
  unfold normalizePath
  rw [normalizeAuxNoDotsAppend (normalizeAux [] p) []
    (normalizeAuxNoDots p [] (by simp))]
  simp

end UriModel
